import Mathlib

/-!
# Quantum Battleships with partial NOT gates — verification of the spec

Shallow embedding of the main loop of
`src/community/games/battleships_with_partial_NOT_gates.ipynb`.

The notebook's main loop keeps, per attacking player `X` and board
position `Y`, a count `bomb[X][Y]` of bombs dropped there, and for each
(defending) `player` builds a 5-qubit circuit: for every `position` and
every bomb recorded by the opponent (`bomb[(player+1)%2][position]`), and
for every `ship in [0,1,2]` with `position == shipPos[player][ship]`, it
appends `u3(frac * math.pi, 0.0, 0.0, q[position])` with
`frac = 1/(ship+1)`; finally every qubit is measured.

We represent a gate by the coefficient of `π` in its angle (a rational:
the source always passes `frac * math.pi` with `frac = 1/(ship+1)`), a
circuit on one qubit by the list of such coefficients, and give the
standard single-qubit semantics: `u3(θ, 0, 0)` acts on the real span of
the basis states as the rotation matrix
`[[cos(θ/2), -sin(θ/2)], [sin(θ/2), cos(θ/2)]]`, and measuring the
excited state has probability its squared amplitude.

The execution backend (`execute(qc, backend=device, shots=shots)` with
`get_counts`) and the routines of `game_engines/battleships_engine.py`
(`ask_for_bombs`, `display_grid`) are not part of the repository, so they
are modelled from the spec; each such definition says so in its comment.
-/

/-- The ledger `bomb[X][Y]` holds the number of times position `Y` has been
bombed by player `X+1`; the board has 5 positions and there are 2 players. -/
def Bomb : Type := Fin 2 → Fin 5 → ℕ

/-- Ship placements: `shipPos[player][ship]` is the board position of that
player's ship number `ship` (ships are indexed 0,1,2 as in the source; ship
number `s` is the `(s+1)`-th ship placed, i.e. has order index `s+1`). -/
def ShipPos : Type := Fin 2 → Fin 3 → Fin 5

/-- The fraction `frac = 1/(ship+1)` of a NOT applied per bomb to the qubit
of ship number `ship` (source line `frac = 1/(ship+1)`). -/
def frac (ship : Fin 3) : ℚ := 1 / (ship.val + 1)

/-- The number of samples used for statistics (source line `shots = 1024`). -/
def shots : ℕ := 1024

/-- Gate coefficients appended at `position` by ONE bomb there: the inner
loop `for ship in [0,1,2]: if position == shipPos[player][ship]` appends a
`u3` of angle `frac ship * π` for every matching ship. -/
def bombGatesOnce (shipsP : Fin 3 → Fin 5) (position : Fin 5) : List ℚ :=
  ([0, 1, 2] : List (Fin 3)).filterMap fun ship =>
    if position = shipsP ship then some (frac ship) else none

/-- All gate coefficients applied to the qubit at `position` of `player`'s
grid: the loop `for n in range(bomb[(player+1)%2][position])` repeats
`bombGatesOnce` once per recorded bomb of the opposing player (`player + 1`
in `Fin 2` is exactly `(player+1) % 2`). -/
def gatesAt (bomb : Bomb) (shipPos : ShipPos) (player : Fin 2)
    (position : Fin 5) : List ℚ :=
  (List.range (bomb (player + 1) position)).flatMap fun _ =>
    bombGatesOnce (shipPos player) position

/-- The gate `u3(θ, 0, 0)` on the real span of the two basis states (the
source only calls `u3` with `φ = λ = 0`, where it is the real rotation
matrix by `θ/2`). A state is the pair of amplitudes (ground, excited). -/
noncomputable def u3 (theta : ℝ) (s : ℝ × ℝ) : ℝ × ℝ :=
  (Real.cos (theta / 2) * s.1 - Real.sin (theta / 2) * s.2,
   Real.sin (theta / 2) * s.1 + Real.cos (theta / 2) * s.2)

/-- Run a list of gates (π-coefficients) on a state, first gate first. -/
noncomputable def runGates (gs : List ℚ) (s : ℝ × ℝ) : ℝ × ℝ :=
  gs.foldl (fun t f => u3 ((f : ℝ) * Real.pi) t) s

/-- Total rotation (in radians) applied by a gate list. -/
noncomputable def totalRotation (gs : List ℚ) : ℝ := (gs.sum : ℝ) * Real.pi

/-- Probability of measuring the excited state (ship hit/destroyed) after
running the gates on the ground state. -/
noncomputable def prob1 (gs : List ℚ) : ℝ := (runGates gs (1, 0)).2 ^ 2

/-- Modelled from the spec: a Bernoulli sample from the external execution
backend (spec section 4.3 step 2). A sample is one uniform draw `u ∈ [0,1)`
from the pseudo-random source; it succeeds iff `u < p`. `successes` counts
the successful samples among the draws `us`. -/
noncomputable def successes (p : ℝ) (us : List ℝ) : ℕ :=
  us.countP fun u => @decide (u < p) (Classical.propDecidable _)

/-- Modelled from the spec: `damage_percent = round(100 * successes / N)`
(spec section 4.3 step 3; computed by the missing `display_grid`). -/
def damage_percent (succ N : ℕ) : ℤ :=
  round ((100 * succ : ℚ) / N)

/-- Modelled from the spec: a ship is reported destroyed iff its damage
percentage is at least the destruction threshold 95 (spec section 3,
implemented in the missing `display_grid`). -/
def destroyed (d : ℤ) : Bool := decide (95 ≤ d)

/-- A grid cell's report: a placeholder (unknown) or a damage percentage. -/
inductive CellReport where
  | unknown : CellReport
  | percent : ℤ → CellReport
deriving DecidableEq

/-- Modelled from the spec: the per-position report of the missing
`display_grid` (spec section 4.3 step 4): if the attack count at the
position is zero, report a placeholder and draw no samples; otherwise draw
the full `N`-sample batch `us` and report the rounded percentage. -/
noncomputable def cellReport (count : ℕ) (p : ℝ) (us : List ℝ) (N : ℕ) :
    CellReport :=
  if count = 0 then CellReport.unknown
  else CellReport.percent (damage_percent (successes p us) N)

/-- Game outcome after a round's report. -/
inductive Outcome where
  | ongoing : Outcome
  | winner : Fin 2 → Outcome
  | draw : Outcome
deriving DecidableEq

/-- Modelled from the spec: the termination check of the missing
`display_grid` (spec section 4.4): if all three ships of either player are
destroyed the game ends, and when both fleets are destroyed in the same
round the result is a draw, not an arbitrary winner. `d player ship` is the
destroyed flag of that player's own ship. -/
def gameOutcome (d : Fin 2 → Fin 3 → Bool) : Outcome :=
  if (∀ s, d 0 s) ∧ (∀ s, d 1 s) then Outcome.draw
  else if ∀ s, d 0 s then Outcome.winner 1
  else if ∀ s, d 1 s then Outcome.winner 0
  else Outcome.ongoing

/-- Modelled from the spec: `record_attack(attacking_player, position)`
increments that cell's count by 1 (spec section 4.2; the source's
`ask_for_bombs` lives in the missing `game_engines/battleships_engine.py`). -/
def record_attack (bomb : Bomb) (player : Fin 2) (position : Fin 5) : Bomb :=
  fun x y => if x = player ∧ y = position then bomb x y + 1 else bomb x y

/-- Modelled from the spec: one round's `bomb = ask_for_bombs(bomb)` records
exactly one attack per player, at the target each chose. -/
def ask_for_bombs (bomb : Bomb) (target1 target2 : Fin 5) : Bomb :=
  record_attack (record_attack bomb 0 target1) 1 target2

/-- Example board: both players place their ships at positions 0, 1, 2
(in placement order). -/
def shipsEx : ShipPos := fun _ s => ⟨s.val, by omega⟩

/-- Example ledger: both players have bombed position 0 exactly `k` times. -/
def bombK (k : ℕ) : Bomb := fun _ y => if y = 0 then k else 0

/-- Example ledger: both players have bombed positions 0 and 2 exactly `k`
times each. -/
def bombK02 (k : ℕ) : Bomb := fun _ y => if y = 0 ∨ y = 2 then k else 0

/-- Example ledger: player 1 has bombed every position 5 times, player 2
has bombed nothing. -/
def bombOwn5 : Bomb := fun x _ => if x = 0 then 5 else 0

/-- Example ledger: nobody has bombed anything. -/
def bombZero : Bomb := fun _ _ => 0

/-- Example ledger: seven bombs on the (ship-free in `shipsEx`) position 3. -/
def bombAt3 : Bomb := fun _ y => if y = 3 then 7 else 0

/- ### Semantics lemmas -/

lemma u3_angle (theta a : ℝ) :
    u3 theta (Real.cos (a / 2), Real.sin (a / 2))
      = (Real.cos ((a + theta) / 2), Real.sin ((a + theta) / 2)) := by
  have h : (a + theta) / 2 = a / 2 + theta / 2 := by ring
  simp only [u3, h, Real.cos_add, Real.sin_add, Prod.mk.injEq]
  constructor <;> ring

lemma runGates_cons (f : ℚ) (t : List ℚ) (s : ℝ × ℝ) :
    runGates (f :: t) s = runGates t (u3 ((f : ℝ) * Real.pi) s) := rfl

lemma runGates_angle (gs : List ℚ) (a : ℝ) :
    runGates gs (Real.cos (a / 2), Real.sin (a / 2))
      = (Real.cos ((a + (gs.sum : ℝ) * Real.pi) / 2),
         Real.sin ((a + (gs.sum : ℝ) * Real.pi) / 2)) := by
  induction gs generalizing a with
  | nil => simp [runGates]
  | cons f t ih =>
      rw [runGates_cons, u3_angle, ih (a + (f : ℝ) * Real.pi)]
      have h : a + (f : ℝ) * Real.pi + ((t.sum : ℝ)) * Real.pi
          = a + (((f :: t).sum : ℚ) : ℝ) * Real.pi := by
        push_cast [List.sum_cons]
        ring
      rw [h]

lemma prob1_eq (gs : List ℚ) :
    prob1 gs = Real.sin ((gs.sum : ℝ) * Real.pi / 2) ^ 2 := by
  have h0 : ((1 : ℝ), (0 : ℝ)) = (Real.cos (0 / 2), Real.sin (0 / 2)) := by
    norm_num
  rw [prob1, h0, runGates_angle]
  norm_num

/- ### Circuit-structure lemmas -/

lemma bombGatesOnce_of_empty (shipsP : Fin 3 → Fin 5) (position : Fin 5)
    (h : ∀ ship, shipsP ship ≠ position) :
    bombGatesOnce shipsP position = [] := by
  simp [bombGatesOnce, List.filterMap, fun s => (h s).symm]

lemma bombGatesOnce_of_ship (shipsP : Fin 3 → Fin 5) (ship : Fin 3)
    (hdist : ∀ i j : Fin 3, i ≠ j → shipsP i ≠ shipsP j) :
    bombGatesOnce shipsP (shipsP ship) = [frac ship] := by
  fin_cases ship <;>
    simp [bombGatesOnce, List.filterMap, hdist 0 1 (by decide),
      hdist 0 2 (by decide), hdist 1 0 (by decide), hdist 1 2 (by decide),
      hdist 2 0 (by decide), hdist 2 1 (by decide)]

lemma flatMap_const_sum (n : ℕ) (l : List ℚ) :
    ((List.range n).flatMap fun _ => l).sum = n * l.sum := by
  induction n with
  | zero => simp
  | succ n ih =>
      rw [List.range_succ, List.flatMap_append, List.sum_append, ih]
      simp only [List.flatMap_cons, List.flatMap_nil, List.append_nil]
      push_cast
      ring

lemma gatesAt_sum (bomb : Bomb) (shipPos : ShipPos) (player : Fin 2)
    (position : Fin 5) :
    (gatesAt bomb shipPos player position).sum
      = bomb (player + 1) position * (bombGatesOnce (shipPos player) position).sum := by
  rw [gatesAt, flatMap_const_sum]

lemma gatesAt_sum_of_ship (bomb : Bomb) (shipPos : ShipPos) (player : Fin 2)
    (ship : Fin 3)
    (hdist : ∀ i j : Fin 3, i ≠ j → shipPos player i ≠ shipPos player j) :
    (gatesAt bomb shipPos player (shipPos player ship)).sum
      = bomb (player + 1) (shipPos player ship) * frac ship := by
  rw [gatesAt_sum, bombGatesOnce_of_ship (shipPos player) ship hdist]
  simp

lemma frac_cast (ship : Fin 3) : ((frac ship : ℚ) : ℝ) = 1 / (ship.val + 1) := by
  rw [frac]
  push_cast
  ring

lemma totalRotation_of_ship (bomb : Bomb) (shipPos : ShipPos) (player : Fin 2)
    (ship : Fin 3)
    (hdist : ∀ i j : Fin 3, i ≠ j → shipPos player i ≠ shipPos player j) :
    totalRotation (gatesAt bomb shipPos player (shipPos player ship))
      = (bomb (player + 1) (shipPos player ship) : ℝ)
          * (1 / (ship.val + 1)) * Real.pi := by
  rw [totalRotation, gatesAt_sum_of_ship bomb shipPos player ship hdist]
  push_cast [frac]
  ring

lemma prob1_of_ship (bomb : Bomb) (shipPos : ShipPos) (player : Fin 2)
    (ship : Fin 3)
    (hdist : ∀ i j : Fin 3, i ≠ j → shipPos player i ≠ shipPos player j) :
    prob1 (gatesAt bomb shipPos player (shipPos player ship))
      = Real.sin ((bomb (player + 1) (shipPos player ship) : ℝ)
          * (1 / (ship.val + 1)) * Real.pi / 2) ^ 2 := by
  rw [prob1_eq, gatesAt_sum_of_ship bomb shipPos player ship hdist]
  have h : ((((bomb (player + 1) (shipPos player ship) : ℚ) * frac ship : ℚ)) : ℝ)
        * Real.pi / 2
      = (bomb (player + 1) (shipPos player ship) : ℝ)
          * (1 / (ship.val + 1)) * Real.pi / 2 := by
    push_cast [frac]
    ring
  rw [h]

/-- Claim C1: for every ship of the defending player, the total rotation
applied to that ship's qubit equals (number of attacks recorded by the
attacking player on the ship's position) × (1/order_index) × π — composing
the per-attack partial flips of fraction `1/order_index = 1/(ship+1)`
yields total rotation `k·(1/order_index)·π` — and the per-sample
destruction probability is `sin²(rotation/2)`. -/
theorem C1_rotation_probability (bomb : Bomb) (shipPos : ShipPos)
    (player : Fin 2) (ship : Fin 3)
    (hdist : ∀ i j : Fin 3, i ≠ j → shipPos player i ≠ shipPos player j) :
    totalRotation (gatesAt bomb shipPos player (shipPos player ship))
        = (bomb (player + 1) (shipPos player ship) : ℝ)
            * (1 / (ship.val + 1)) * Real.pi
      ∧ prob1 (gatesAt bomb shipPos player (shipPos player ship))
        = Real.sin (totalRotation (gatesAt bomb shipPos player (shipPos player ship)) / 2) ^ 2 := by
  refine ⟨totalRotation_of_ship bomb shipPos player ship hdist, ?_⟩
  rw [prob1_eq, totalRotation]

/-- Witness for C1 at a concrete board: both players' ships at positions
0,1,2, three bombs on position 0, defender player 0, ship 0. -/
theorem C1_witness :
    (∀ i j : Fin 3, i ≠ j → shipsEx 0 i ≠ shipsEx 0 j)
    ∧ (totalRotation (gatesAt (bombK 3) shipsEx 0 (shipsEx 0 0))
          = (bombK 3 (0 + 1) (shipsEx 0 0) : ℝ)
              * (1 / ((0 : Fin 3).val + 1)) * Real.pi
        ∧ prob1 (gatesAt (bombK 3) shipsEx 0 (shipsEx 0 0))
          = Real.sin (totalRotation (gatesAt (bombK 3) shipsEx 0 (shipsEx 0 0)) / 2) ^ 2) :=
  ⟨by decide, C1_rotation_probability (bombK 3) shipsEx 0 0 (by decide)⟩

lemma prob1_of_sum (gs : List ℚ) (q : ℚ) (h : gs.sum = q) :
    prob1 gs = Real.sin ((q : ℝ) * Real.pi / 2) ^ 2 := by
  rw [prob1_eq, h]

lemma sq_sin_mono {x y : ℝ} (hx : 0 ≤ x) (hxy : x ≤ y) (hy : y ≤ Real.pi / 2) :
    Real.sin x ^ 2 ≤ Real.sin y ^ 2 := by
  have hpi := Real.pi_pos
  have hsx : 0 ≤ Real.sin x :=
    Real.sin_nonneg_of_nonneg_of_le_pi hx (by linarith)
  have hle : Real.sin x ≤ Real.sin y :=
    Real.strictMonoOn_sin.monotoneOn
      (Set.mem_Icc.mpr ⟨by linarith, by linarith⟩)
      (Set.mem_Icc.mpr ⟨by linarith, hy⟩) hxy
  exact pow_le_pow_left₀ hsx hle 2

/-- Claim C2 as stated is false: with order index 1 (ship 0 at position 0),
going from 1 recorded attack to 2 the destruction probability drops from
sin²(π/2) = 1 to sin²(π) = 0, so it is not non-decreasing in the attack
count. -/
theorem C2_counterexample :
    prob1 (gatesAt (bombK 2) shipsEx 0 (shipsEx 0 0))
      < prob1 (gatesAt (bombK 1) shipsEx 0 (shipsEx 0 0)) := by
  have hdist : ∀ i j : Fin 3, i ≠ j → shipsEx 0 i ≠ shipsEx 0 j := by decide
  have hb1 : bombK 1 ((0 : Fin 2) + 1) (shipsEx 0 0) = 1 := by decide
  have hb2 : bombK 2 ((0 : Fin 2) + 1) (shipsEx 0 0) = 2 := by decide
  have h1 : prob1 (gatesAt (bombK 1) shipsEx 0 (shipsEx 0 0)) = 1 := by
    rw [prob1_of_sum _ 1
      (by rw [gatesAt_sum_of_ship _ _ _ _ hdist, hb1]; norm_num [frac])]
    norm_num [Real.sin_pi_div_two]
  have h2 : prob1 (gatesAt (bombK 2) shipsEx 0 (shipsEx 0 0)) = 0 := by
    rw [prob1_of_sum _ 2
      (by rw [gatesAt_sum_of_ship _ _ _ _ hdist, hb2]; norm_num [frac])]
    rw [show ((2 : ℚ) : ℝ) * Real.pi / 2 = Real.pi by push_cast; ring]
    norm_num [Real.sin_pi]
  rw [h1, h2]
  norm_num

/-- Claim C2 (amended): the accumulated rotation is non-decreasing in the
attack count for every order index, and the destruction probability
sin²(rotation/2) is non-decreasing as long as the attack count stays at
most the order index (i.e. while the rotation stays within [0, π]); beyond
that the probability can decrease (see the counterexample). -/
theorem C2_amended (b1 b2 : Bomb) (shipPos : ShipPos) (player : Fin 2)
    (ship : Fin 3)
    (hdist : ∀ i j : Fin 3, i ≠ j → shipPos player i ≠ shipPos player j)
    (hle : b1 (player + 1) (shipPos player ship)
      ≤ b2 (player + 1) (shipPos player ship)) :
    totalRotation (gatesAt b1 shipPos player (shipPos player ship))
      ≤ totalRotation (gatesAt b2 shipPos player (shipPos player ship))
    ∧ (b2 (player + 1) (shipPos player ship) ≤ ship.val + 1 →
        prob1 (gatesAt b1 shipPos player (shipPos player ship))
          ≤ prob1 (gatesAt b2 shipPos player (shipPos player ship))) := by
  have hpi := Real.pi_pos
  have hfrac : (0 : ℝ) < 1 / (ship.val + 1) := by positivity
  have hk : ((b1 (player + 1) (shipPos player ship) : ℝ))
      ≤ (b2 (player + 1) (shipPos player ship) : ℝ) := Nat.cast_le.mpr hle
  rw [totalRotation_of_ship b1 shipPos player ship hdist,
    totalRotation_of_ship b2 shipPos player ship hdist,
    prob1_of_ship b1 shipPos player ship hdist,
    prob1_of_ship b2 shipPos player ship hdist]
  have hxy : (b1 (player + 1) (shipPos player ship) : ℝ)
        * (1 / (ship.val + 1)) * Real.pi
      ≤ (b2 (player + 1) (shipPos player ship) : ℝ)
        * (1 / (ship.val + 1)) * Real.pi :=
    mul_le_mul_of_nonneg_right
      (mul_le_mul_of_nonneg_right hk hfrac.le) hpi.le
  refine ⟨hxy, fun hcap => ?_⟩
  have hcapR : (b2 (player + 1) (shipPos player ship) : ℝ)
      * (1 / (ship.val + 1)) ≤ 1 := by
    rw [mul_one_div, div_le_one (by positivity)]
    exact_mod_cast hcap
  have hy : (b2 (player + 1) (shipPos player ship) : ℝ)
      * (1 / (ship.val + 1)) * Real.pi / 2 ≤ Real.pi / 2 := by
    have := mul_le_mul_of_nonneg_right hcapR hpi.le
    linarith
  exact sq_sin_mono (by positivity) (by linarith) hy

/-- Witness for the amended C2: going from 0 to 1 attacks on position 0
with ship 0 (order index 1). -/
theorem C2_amended_witness :
    ((∀ i j : Fin 3, i ≠ j → shipsEx 0 i ≠ shipsEx 0 j)
      ∧ bombZero ((0 : Fin 2) + 1) (shipsEx 0 0)
          ≤ bombK 1 ((0 : Fin 2) + 1) (shipsEx 0 0))
    ∧ (totalRotation (gatesAt bombZero shipsEx 0 (shipsEx 0 0))
        ≤ totalRotation (gatesAt (bombK 1) shipsEx 0 (shipsEx 0 0))
      ∧ (bombK 1 ((0 : Fin 2) + 1) (shipsEx 0 0) ≤ (0 : Fin 3).val + 1 →
          prob1 (gatesAt bombZero shipsEx 0 (shipsEx 0 0))
            ≤ prob1 (gatesAt (bombK 1) shipsEx 0 (shipsEx 0 0)))) :=
  ⟨⟨by decide, by decide⟩,
    C2_amended bombZero (bombK 1) shipsEx 0 0 (by decide) (by decide)⟩

lemma successes_all (p : ℝ) (us : List ℝ) (h : ∀ u ∈ us, u < p) :
    successes p us = us.length := by
  rw [successes, List.countP_eq_length]
  intro u hu
  simpa using h u hu

lemma damage_percent_full (N : ℕ) (hN : 1 ≤ N) : damage_percent N N = 100 := by
  have hN0 : (N : ℚ) ≠ 0 := Nat.cast_ne_zero.mpr (by omega)
  rw [damage_percent, mul_div_assoc, div_self hN0, mul_one]
  norm_num [round_eq]

/-- Claim C3: when the attack count on a ship's position equals the ship's
order index (and all those attacks land on that one ship's position), the
per-sample success probability is exactly 1 (rotation = π), so for every
sample count N ≥ 1 the reported damage is 100% and the ship is destroyed
regardless of sampling noise. -/
theorem C3_full_rotation (bomb : Bomb) (shipPos : ShipPos) (player : Fin 2)
    (ship : Fin 3) (N : ℕ) (us : List ℝ)
    (hdist : ∀ i j : Fin 3, i ≠ j → shipPos player i ≠ shipPos player j)
    (hcount : bomb (player + 1) (shipPos player ship) = ship.val + 1)
    (hN : 1 ≤ N) (hlen : us.length = N) (hus : ∀ u ∈ us, u < 1) :
    prob1 (gatesAt bomb shipPos player (shipPos player ship)) = 1
    ∧ damage_percent
        (successes (prob1 (gatesAt bomb shipPos player (shipPos player ship))) us)
        N = 100
    ∧ destroyed (damage_percent
        (successes (prob1 (gatesAt bomb shipPos player (shipPos player ship))) us)
        N) = true := by
  have hne : ((ship.val : ℝ) + 1) ≠ 0 := by positivity
  have hp : prob1 (gatesAt bomb shipPos player (shipPos player ship)) = 1 := by
    rw [prob1_of_ship bomb shipPos player ship hdist, hcount]
    rw [show ((ship.val + 1 : ℕ) : ℝ) * (1 / ((ship.val : ℝ) + 1)) * Real.pi / 2
        = Real.pi / 2 by push_cast; rw [mul_one_div, div_self hne, one_mul]]
    norm_num [Real.sin_pi_div_two]
  have hs : successes 1 us = us.length := successes_all 1 us hus
  rw [hp, hs, hlen, damage_percent_full N hN]
  exact ⟨rfl, rfl, by decide⟩

/-- Witness for C3: one bomb on position 0 destroys the order-index-1 ship
placed there, with a single sample. -/
theorem C3_witness :
    (bombK 1 ((0 : Fin 2) + 1) (shipsEx 0 0) = (0 : Fin 3).val + 1
      ∧ (1 : ℕ) ≤ 1 ∧ ([(0 : ℝ)]).length = 1 ∧ ∀ u ∈ [(0 : ℝ)], u < 1)
    ∧ (prob1 (gatesAt (bombK 1) shipsEx 0 (shipsEx 0 0)) = 1
      ∧ damage_percent
          (successes (prob1 (gatesAt (bombK 1) shipsEx 0 (shipsEx 0 0))) [(0 : ℝ)])
          1 = 100
      ∧ destroyed (damage_percent
          (successes (prob1 (gatesAt (bombK 1) shipsEx 0 (shipsEx 0 0))) [(0 : ℝ)])
          1) = true) :=
  ⟨⟨by decide, by norm_num, rfl, by norm_num⟩,
    C3_full_rotation (bombK 1) shipsEx 0 0 1 [0] (by decide) (by decide)
      (by norm_num) rfl (by norm_num)⟩

lemma successes_none (p : ℝ) (us : List ℝ) (h : ∀ u ∈ us, ¬(u < p)) :
    successes p us = 0 := by
  rw [successes, List.countP_eq_zero]
  intro u hu
  simpa using h u hu

lemma prob1_at_order (bomb : Bomb) (shipPos : ShipPos) (player : Fin 2)
    (ship : Fin 3)
    (hdist : ∀ i j : Fin 3, i ≠ j → shipPos player i ≠ shipPos player j)
    (hcount : bomb (player + 1) (shipPos player ship) = ship.val + 1) :
    prob1 (gatesAt bomb shipPos player (shipPos player ship)) = 1 := by
  have hne : ((ship.val : ℝ) + 1) ≠ 0 := by positivity
  rw [prob1_of_ship bomb shipPos player ship hdist, hcount]
  rw [show ((ship.val + 1 : ℕ) : ℝ) * (1 / ((ship.val : ℝ) + 1)) * Real.pi / 2
      = Real.pi / 2 by push_cast; rw [mul_one_div, div_self hne, one_mul]]
  norm_num [Real.sin_pi_div_two]

lemma val_two_fin3 : ((2 : Fin 3)).val = 2 := rfl

/-- Claim C4 as stated is false: the per-bomb rotation is uncapped, so a
ship whose rotation reached π (probability 1 after one attack on the
order-index-1 ship) gets rotation 2π after one further attack on its
position, where the probability is sin²(π) = 0 and every sample batch
reports 0% damage, i.e. the destruction state does not stay true. -/
theorem C4_counterexample :
    prob1 (gatesAt (bombK 1) shipsEx 0 (shipsEx 0 0)) = 1
    ∧ prob1 (gatesAt (bombK 2) shipsEx 0 (shipsEx 0 0)) = 0
    ∧ destroyed (damage_percent
        (successes (prob1 (gatesAt (bombK 2) shipsEx 0 (shipsEx 0 0)))
          [0, 1/2, 1/2, 1/2]) 4) = false := by
  have hdist : ∀ i j : Fin 3, i ≠ j → shipsEx 0 i ≠ shipsEx 0 j := by decide
  have hb2 : bombK 2 ((0 : Fin 2) + 1) (shipsEx 0 0) = 2 := by decide
  have h1 : prob1 (gatesAt (bombK 1) shipsEx 0 (shipsEx 0 0)) = 1 :=
    prob1_at_order (bombK 1) shipsEx 0 0 hdist (by decide)
  have h2 : prob1 (gatesAt (bombK 2) shipsEx 0 (shipsEx 0 0)) = 0 := by
    rw [prob1_of_sum _ 2
      (by rw [gatesAt_sum_of_ship _ _ _ _ hdist, hb2]; norm_num [frac])]
    rw [show ((2 : ℚ) : ℝ) * Real.pi / 2 = Real.pi by push_cast; ring]
    norm_num [Real.sin_pi]
  refine ⟨h1, h2, ?_⟩
  rw [h2, successes_none 0 [0, 1/2, 1/2, 1/2] (by norm_num)]
  norm_num [damage_percent, destroyed]

/-- Claim C4 (amended): in the round where the attack count on the ship's
position reaches its order index, the rotation is exactly π and the
destruction probability exactly 1; in every later round the accumulated
rotation stays at least π (rotation is monotone non-decreasing), but the
probability need not stay 1, since the rotation is uncapped. -/
theorem C4_amended (b1 b2 : Bomb) (shipPos : ShipPos) (player : Fin 2)
    (ship : Fin 3)
    (hdist : ∀ i j : Fin 3, i ≠ j → shipPos player i ≠ shipPos player j)
    (hcount : b1 (player + 1) (shipPos player ship) = ship.val + 1)
    (hle : b1 (player + 1) (shipPos player ship)
      ≤ b2 (player + 1) (shipPos player ship)) :
    prob1 (gatesAt b1 shipPos player (shipPos player ship)) = 1
    ∧ Real.pi ≤ totalRotation (gatesAt b2 shipPos player (shipPos player ship)) := by
  refine ⟨prob1_at_order b1 shipPos player ship hdist hcount, ?_⟩
  rw [totalRotation_of_ship b2 shipPos player ship hdist]
  have hk : ((ship.val : ℝ) + 1) ≤ (b2 (player + 1) (shipPos player ship) : ℝ) := by
    rw [hcount] at hle
    exact_mod_cast hle
  have h1 : (1 : ℝ) ≤ (b2 (player + 1) (shipPos player ship) : ℝ)
      * (1 / (ship.val + 1)) := by
    rw [mul_one_div, le_div_iff₀ (by positivity), one_mul]
    exact hk
  have := mul_le_mul_of_nonneg_right h1 Real.pi_pos.le
  linarith

/-- Witness for the amended C4: one bomb on position 0 reaches rotation π
for the order-index-1 ship there; with a second bomb the rotation is ≥ π. -/
theorem C4_amended_witness :
    ((∀ i j : Fin 3, i ≠ j → shipsEx 0 i ≠ shipsEx 0 j)
      ∧ bombK 1 ((0 : Fin 2) + 1) (shipsEx 0 0) = (0 : Fin 3).val + 1
      ∧ bombK 1 ((0 : Fin 2) + 1) (shipsEx 0 0)
          ≤ bombK 2 ((0 : Fin 2) + 1) (shipsEx 0 0))
    ∧ (prob1 (gatesAt (bombK 1) shipsEx 0 (shipsEx 0 0)) = 1
      ∧ Real.pi ≤ totalRotation (gatesAt (bombK 2) shipsEx 0 (shipsEx 0 0))) :=
  ⟨⟨by decide, by decide, by decide⟩,
    C4_amended (bombK 1) (bombK 2) shipsEx 0 0 (by decide) (by decide) (by decide)⟩

/-- Claim C5 as stated is false: at equal attack count k = 2 on both
positions, the order-index-1 ship has rotation 2π (three times the 2π/3 of
the order-index-3 ship, so the rotation part holds), but its destruction
probability is sin²(π) = 0, strictly LOWER than the order-index-3 ship's
sin²(π/3) = 3/4. -/
theorem C5_counterexample :
    totalRotation (gatesAt (bombK02 2) shipsEx 0 (shipsEx 0 0))
      = 3 * totalRotation (gatesAt (bombK02 2) shipsEx 0 (shipsEx 0 2))
    ∧ prob1 (gatesAt (bombK02 2) shipsEx 0 (shipsEx 0 0))
      < prob1 (gatesAt (bombK02 2) shipsEx 0 (shipsEx 0 2)) := by
  have hdist : ∀ i j : Fin 3, i ≠ j → shipsEx 0 i ≠ shipsEx 0 j := by decide
  have hb0 : bombK02 2 ((0 : Fin 2) + 1) (shipsEx 0 0) = 2 := by decide
  have hb2 : bombK02 2 ((0 : Fin 2) + 1) (shipsEx 0 2) = 2 := by decide
  have s0 : (gatesAt (bombK02 2) shipsEx 0 (shipsEx 0 0)).sum = 2 := by
    rw [gatesAt_sum_of_ship _ _ _ _ hdist, hb0]
    norm_num [frac]
  have s2 : (gatesAt (bombK02 2) shipsEx 0 (shipsEx 0 2)).sum = 2/3 := by
    rw [gatesAt_sum_of_ship _ _ _ _ hdist, hb2]
    norm_num [frac, val_two_fin3]
  constructor
  · rw [totalRotation, totalRotation, s0, s2]
    push_cast
    ring
  · have hp0 : prob1 (gatesAt (bombK02 2) shipsEx 0 (shipsEx 0 0)) = 0 := by
      rw [prob1_of_sum _ 2 s0,
        show ((2 : ℚ) : ℝ) * Real.pi / 2 = Real.pi by push_cast; ring]
      norm_num [Real.sin_pi]
    have hp2 : prob1 (gatesAt (bombK02 2) shipsEx 0 (shipsEx 0 2)) = 3/4 := by
      rw [prob1_of_sum _ (2/3) s2,
        show (((2 : ℚ)/3 : ℚ) : ℝ) * Real.pi / 2 = Real.pi / 3 by push_cast; ring]
      exact Real.sq_sin_pi_div_three
    rw [hp0, hp2]
    norm_num

/-- Claim C5 (amended): for every equal attack count k on the two positions,
the order-index-1 ship's rotation is exactly 3 times the order-index-3
ship's; at attack count k = 1 its destruction probability is strictly
higher (1 versus sin²(π/6) = 1/4), but for larger equal counts the ordering
can reverse (see the counterexample). -/
theorem C5_amended (bomb : Bomb) (shipPos : ShipPos) (player : Fin 2) (k : ℕ)
    (hdist : ∀ i j : Fin 3, i ≠ j → shipPos player i ≠ shipPos player j)
    (h0 : bomb (player + 1) (shipPos player 0) = k)
    (h2 : bomb (player + 1) (shipPos player 2) = k) :
    totalRotation (gatesAt bomb shipPos player (shipPos player 0))
      = 3 * totalRotation (gatesAt bomb shipPos player (shipPos player 2))
    ∧ (k = 1 → prob1 (gatesAt bomb shipPos player (shipPos player 2))
        < prob1 (gatesAt bomb shipPos player (shipPos player 0))) := by
  constructor
  · rw [totalRotation_of_ship bomb shipPos player 0 hdist,
      totalRotation_of_ship bomb shipPos player 2 hdist, h0, h2]
    simp only [Fin.val_zero, val_two_fin3]
    push_cast
    ring
  · intro hk
    subst hk
    rw [prob1_of_ship bomb shipPos player 0 hdist,
      prob1_of_ship bomb shipPos player 2 hdist, h0, h2]
    rw [show ((1 : ℕ) : ℝ) * (1 / (((2 : Fin 3)).val + 1)) * Real.pi / 2
        = Real.pi / 6 by rw [val_two_fin3]; push_cast; ring]
    rw [show ((1 : ℕ) : ℝ) * (1 / (((0 : Fin 3)).val + 1)) * Real.pi / 2
        = Real.pi / 2 by rw [Fin.val_zero]; push_cast; ring]
    norm_num [Real.sin_pi_div_six, Real.sin_pi_div_two]

/-- Witness for the amended C5: one bomb each on positions 0 and 2. -/
theorem C5_amended_witness :
    ((∀ i j : Fin 3, i ≠ j → shipsEx 0 i ≠ shipsEx 0 j)
      ∧ bombK02 1 ((0 : Fin 2) + 1) (shipsEx 0 0) = 1
      ∧ bombK02 1 ((0 : Fin 2) + 1) (shipsEx 0 2) = 1)
    ∧ (totalRotation (gatesAt (bombK02 1) shipsEx 0 (shipsEx 0 0))
        = 3 * totalRotation (gatesAt (bombK02 1) shipsEx 0 (shipsEx 0 2))
      ∧ ((1 : ℕ) = 1 → prob1 (gatesAt (bombK02 1) shipsEx 0 (shipsEx 0 2))
          < prob1 (gatesAt (bombK02 1) shipsEx 0 (shipsEx 0 0)))) :=
  ⟨⟨by decide, by decide, by decide⟩,
    C5_amended (bombK02 1) shipsEx 0 1 (by decide) (by decide) (by decide)⟩

lemma flatMap_const_nil (n : ℕ) :
    ((List.range n).flatMap fun _ => ([] : List ℚ)) = [] := by
  induction n with
  | zero => simp
  | succ n ih =>
      rw [List.range_succ, List.flatMap_append, ih]
      simp

/-- Claim C6: attacks recorded on a position holding no ship of the
defending player apply no rotation to any qubit: whatever the bomb count at
an empty position, every qubit's gate list — and hence every ship's success
probability — is the same as if that position had never been attacked. -/
theorem C6_empty_position (bomb b2 : Bomb) (shipPos : ShipPos)
    (player : Fin 2) (pos0 : Fin 5)
    (hempty : ∀ ship, shipPos player ship ≠ pos0)
    (hagree : ∀ y, y ≠ pos0 → b2 (player + 1) y = bomb (player + 1) y) :
    (∀ position, gatesAt b2 shipPos player position
        = gatesAt bomb shipPos player position)
    ∧ (∀ ship, prob1 (gatesAt b2 shipPos player (shipPos player ship))
        = prob1 (gatesAt bomb shipPos player (shipPos player ship))) := by
  have hgates : ∀ position, gatesAt b2 shipPos player position
      = gatesAt bomb shipPos player position := by
    intro position
    by_cases hpos : position = pos0
    · subst hpos
      simp only [gatesAt, bombGatesOnce_of_empty (shipPos player) position hempty,
        flatMap_const_nil]
    · rw [gatesAt, gatesAt, hagree position hpos]
  exact ⟨hgates, fun ship => by rw [hgates (shipPos player ship)]⟩

/-- Witness for C6: seven bombs on the empty position 3 versus none. -/
theorem C6_witness :
    ((∀ ship, shipsEx 0 ship ≠ (3 : Fin 5))
      ∧ (∀ y, y ≠ (3 : Fin 5) → bombAt3 ((0 : Fin 2) + 1) y = bombZero ((0 : Fin 2) + 1) y))
    ∧ ((∀ position, gatesAt bombAt3 shipsEx 0 position
          = gatesAt bombZero shipsEx 0 position)
      ∧ (∀ ship, prob1 (gatesAt bombAt3 shipsEx 0 (shipsEx 0 ship))
          = prob1 (gatesAt bombZero shipsEx 0 (shipsEx 0 ship)))) :=
  ⟨⟨by decide, by decide⟩,
    C6_empty_position bombZero bombAt3 shipsEx 0 3 (by decide) (by decide)⟩

/-- Claim C7: a position with zero recorded attacks is always reported as
the unknown placeholder, never as a percentage; any position with a
positive attack count receives the full N-sample percentage report. -/
theorem C7_zero_attack_unknown (count N : ℕ) (p : ℝ) (us : List ℝ) :
    (cellReport count p us N = CellReport.unknown ↔ count = 0)
    ∧ (0 < count →
        cellReport count p us N
          = CellReport.percent (damage_percent (successes p us) N)) := by
  constructor
  · constructor
    · intro h
      by_contra hc
      rw [cellReport, if_neg hc] at h
      exact CellReport.noConfusion h
    · intro h
      rw [cellReport, if_pos h]
  · intro h
    rw [cellReport, if_neg (by omega)]

/-- Witness for C7 at attack counts 0 and 1. -/
theorem C7_witness :
    ((cellReport 0 0 [] 5 = CellReport.unknown ↔ (0 : ℕ) = 0)
      ∧ (0 < 0 → cellReport 0 0 [] 5
          = CellReport.percent (damage_percent (successes 0 []) 5)))
    ∧ ((cellReport 1 0 [] 5 = CellReport.unknown ↔ (1 : ℕ) = 0)
      ∧ (0 < 1 → cellReport 1 0 [] 5
          = CellReport.percent (damage_percent (successes 0 []) 5))) :=
  ⟨C7_zero_attack_unknown 0 5 0 [], C7_zero_attack_unknown 1 5 0 []⟩

/-- Claim C8: per-(player, position) attack counts are monotonically
non-decreasing across rounds: one round's recording increments each
player's targeted cell by exactly 1, leaves every other cell unchanged,
and never decreases any count. -/
theorem C8_counts_monotone (bomb : Bomb) (t1 t2 : Fin 5) :
    (∀ x y, bomb x y ≤ ask_for_bombs bomb t1 t2 x y)
    ∧ ask_for_bombs bomb t1 t2 0 t1 = bomb 0 t1 + 1
    ∧ ask_for_bombs bomb t1 t2 1 t2 = bomb 1 t2 + 1
    ∧ (∀ x y, ¬(x = 0 ∧ y = t1) → ¬(x = 1 ∧ y = t2) →
        ask_for_bombs bomb t1 t2 x y = bomb x y) := by
  have h01 : (0 : Fin 2) ≠ 1 := by decide
  have h10 : (1 : Fin 2) ≠ 0 := by decide
  refine ⟨?_, ?_, ?_, ?_⟩
  · intro x y
    simp only [ask_for_bombs, record_attack]
    split <;> split <;> omega
  · simp [ask_for_bombs, record_attack, h01]
  · simp [ask_for_bombs, record_attack, h10]
  · intro x y hA hB
    simp only [ask_for_bombs, record_attack]
    rw [if_neg hB, if_neg hA]

/-- Witness for C8: recording attacks at positions 0 and 1 on the empty
ledger increments player 1's count at position 0 to 1. -/
theorem C8_witness :
    ask_for_bombs bombZero 0 1 0 0 = bombZero 0 0 + 1 :=
  (C8_counts_monotone bombZero 0 1).2.1

/-- Claim C9: when all three ships of both players are destroyed after a
round's measurement, the game-over report is a draw, never a single
winner. -/
theorem C9_draw (d : Fin 2 → Fin 3 → Bool) (h : ∀ p s, d p s = true) :
    gameOutcome d = Outcome.draw := by
  rw [gameOutcome, if_pos ⟨fun s => h 0 s, fun s => h 1 s⟩]

/-- Witness for C9: all six destroyed flags true. -/
theorem C9_witness :
    gameOutcome (fun _ _ => true) = Outcome.draw :=
  C9_draw (fun _ _ => true) (fun _ _ => rfl)

/-- Claim C10: building a player's circuit reads only the opponent's bomb
row `bomb[(player+1)%2]`: two ledgers that agree on the opponent's counts
but differ arbitrarily on the player's own counts yield identical gate
lists at every qubit and identical measurement probabilities for that
player's grid. -/
theorem C10_own_bombs_irrelevant (b1 b2 : Bomb) (shipPos : ShipPos)
    (player : Fin 2)
    (h : ∀ position, b1 (player + 1) position = b2 (player + 1) position) :
    ∀ position, gatesAt b1 shipPos player position
        = gatesAt b2 shipPos player position
      ∧ prob1 (gatesAt b1 shipPos player position)
        = prob1 (gatesAt b2 shipPos player position) := by
  intro position
  have hg : gatesAt b1 shipPos player position
      = gatesAt b2 shipPos player position := by
    rw [gatesAt, gatesAt, h position]
  exact ⟨hg, by rw [hg]⟩

/-- Witness for C10: a ledger where player 1 bombed every position 5 times
versus the empty ledger — they agree on player 2's (the opponent's) row, so
player 1's own grid is unaffected. -/
theorem C10_witness :
    (∀ position, bombOwn5 ((0 : Fin 2) + 1) position
        = bombZero ((0 : Fin 2) + 1) position)
    ∧ (gatesAt bombOwn5 shipsEx 0 0 = gatesAt bombZero shipsEx 0 0
      ∧ prob1 (gatesAt bombOwn5 shipsEx 0 0) = prob1 (gatesAt bombZero shipsEx 0 0)) :=
  ⟨by decide, C10_own_bombs_irrelevant bombOwn5 bombZero shipsEx 0 (by decide) 0⟩
